import Mathlib

/-!
Verification of the Evpn repository's native-messaging transport and
protocol-session logic (`src/evpn/core/native_messaging.py` and
`src/evpn/core/base_api.py`), as a shallow embedding in Lean.

Modelling conventions:
* JSON-serializable Python values are modelled by `PyVal` (no floats: the
  protocol messages of this program use none).
* Python dicts are association lists in insertion order (CPython ≥ 3.7
  preserves insertion order, which is the order `json.dumps` serializes).
* Byte streams (the child process's stdin/stdout pipes) are `List Nat`,
  each element one byte; `fd.read(n)` takes the first `n` bytes.
* Python exceptions are values of `PyExc`; a raising function returns
  `Except PyExc α`.  `sys.exit(0)` raises `SystemExit(0)`, modelled by
  `PyExc.systemExit 0`.
* Wall-clock time is in whole milliseconds (`Nat`); `time.sleep(0.3)`
  advances it by 300.
-/

/-- JSON-serializable Python values (`None`, `bool`, `int`, `str`, `list`,
`dict` with string keys). -/
inductive PyVal where
  | null
  | bool (b : Bool)
  | int (n : Int)
  | str (s : String)
  | list (xs : List PyVal)
  | dict (kvs : List (String × PyVal))

/-- A Python dict with string keys, in insertion order. -/
abbrev PyDict := List (String × PyVal)

/-- `d.get(key)` / `d[key]` lookup: the value of the first matching key. -/
def pyLookup : PyDict → String → Option PyVal
  | [], _ => none
  | (k, v) :: rest, key => if k == key then some v else pyLookup rest key

/-- `d.get(key, default)`. -/
def pyGetD (d : PyDict) (key : String) (dflt : PyVal) : PyVal :=
  (pyLookup d key).getD dflt

/-- Python truthiness of a value (`bool(v)`). -/
def pyTruthy : PyVal → Bool
  | .null => false
  | .bool b => b
  | .int n => n != 0
  | .str s => s != ""
  | .list xs => !xs.isEmpty
  | .dict kvs => !kvs.isEmpty

/-- Python `v == n` against an int literal (`True == 1`, `2 == 2`, strings
and containers never equal an int). -/
def pyEqInt : PyVal → Int → Bool
  | .int a, b => a == b
  | .bool a, b => (if a then (1 : Int) else 0) == b
  | _, _ => false

/-- Python exceptions raised by the modelled code. -/
inductive PyExc where
  | systemExit (code : Nat)
  | structError
  | unicodeDecodeError
  | jsonDecodeError
  | daemonError (payload : PyVal)
  | timeoutError
  | valueError (msg : String)

theorem pyLookup_nil (key : String) : pyLookup [] key = none := rfl

theorem pyTruthy_null : pyTruthy .null = false := rfl

/-! ### Characters and digits -/

/-- ASCII decimal digit test (`'0' ≤ c ≤ '9'`). -/
def isDigitC (c : Char) : Bool := 48 ≤ c.toNat && c.toNat ≤ 57

/-- JSON insignificant whitespace. -/
def isWsC (c : Char) : Bool := c = ' ' || c = '\t' || c = '\n' || c = '\r'

/-- The ASCII character of a decimal digit. -/
def digChar (d : Nat) : Char := Char.ofNat (48 + d)

/-- Lower-case hex digit character, as `json.dumps` emits in escapes. -/
def hexChar (d : Nat) : Char := if d < 10 then Char.ofNat (48 + d) else Char.ofNat (87 + d)

/-- Little-endian decimal digits of a positive number (empty for 0). -/
def natDigitsRev (n : Nat) : List Char :=
  if h : n = 0 then [] else digChar (n % 10) :: natDigitsRev (n / 10)
  decreasing_by exact Nat.div_lt_self (Nat.pos_of_ne_zero h) (by omega)

/-- Decimal rendering of a natural number. -/
def printNat (n : Nat) : List Char :=
  if n = 0 then ['0'] else List.reverse (natDigitsRev n)

/-- Decimal rendering of a Python int, as `json.dumps` emits it. -/
def printInt (n : Int) : List Char :=
  if n < 0 then '-' :: printNat n.natAbs else printNat n.natAbs

/-! ### `json.dumps`

Modelled after CPython's `json` encoder with its default separators
(`", "` between items, `": "` after keys).  Strings are emitted with the
mandatory two-character escapes (`\"  \\  \b  \f  \n  \r  \t`) and
`\u00XX` for the remaining control characters; other characters are
emitted raw (the `ensure_ascii` ASCII-escaping of the CPython default is
an encoding option that does not affect any property proved here). -/

/-- Escape one character of a JSON string. -/
def escapeChar (c : Char) : List Char :=
  if c = '"' then ['\\', '"']
  else if c = '\\' then ['\\', '\\']
  else if c = '\x08' then ['\\', 'b']
  else if c = '\x0c' then ['\\', 'f']
  else if c = '\n' then ['\\', 'n']
  else if c = '\r' then ['\\', 'r']
  else if c = '\t' then ['\\', 't']
  else if c.toNat < 32 then ['\\', 'u', '0', '0', hexChar (c.toNat / 16), hexChar (c.toNat % 16)]
  else [c]

/-- The body of a serialized JSON string (no surrounding quotes). -/
def escStr (s : List Char) : List Char := s.flatMap escapeChar

mutual

/-- `json.dumps` on a value, as a character list. -/
def dumpVal : PyVal → List Char
  | .null => "null".data
  | .bool true => "true".data
  | .bool false => "false".data
  | .int n => printInt n
  | .str s => '"' :: escStr s.data ++ ['"']
  | .list xs => '[' :: dumpElems xs ++ [']']
  | .dict kvs => '\x7b' :: dumpMembers kvs ++ ['\x7d']

/-- Array elements, separated by `", "`. -/
def dumpElems : List PyVal → List Char
  | [] => []
  | [x] => dumpVal x
  | x :: y :: xs => dumpVal x ++ ',' :: ' ' :: dumpElems (y :: xs)

/-- Object members, `"key": value` separated by `", "`. -/
def dumpMembers : List (String × PyVal) → List Char
  | [] => []
  | [(k, v)] => '"' :: escStr k.data ++ '"' :: ':' :: ' ' :: dumpVal v
  | (k, v) :: m :: kvs =>
      ('"' :: escStr k.data ++ '"' :: ':' :: ' ' :: dumpVal v) ++
        ',' :: ' ' :: dumpMembers (m :: kvs)

end

/-! ### Structure size (fuel bound for the parser) and well-formedness -/

mutual

/-- Fuel needed to parse a value back. -/
def psize : PyVal → Nat
  | .null => 1
  | .bool _ => 1
  | .int _ => 1
  | .str _ => 1
  | .list xs => 1 + psizeElems xs
  | .dict kvs => 1 + psizeMembers kvs

/-- Fuel needed to parse an element list back. -/
def psizeElems : List PyVal → Nat
  | [] => 1
  | x :: xs => 1 + max (psize x) (psizeElems xs)

/-- Fuel needed to parse a member list back. -/
def psizeMembers : List (String × PyVal) → Nat
  | [] => 1
  | (_, v) :: rest => 1 + max (psize v) (psizeMembers rest)

end

/-- No duplicate keys in a dict (every Python dict satisfies this). -/
def nodupKeys : List (String × PyVal) → Bool
  | [] => true
  | (k, _) :: rest => !(rest.any (fun p => p.1 == k)) && nodupKeys rest

mutual

/-- A value reachable from a Python object: every dict has pairwise
distinct keys. -/
def pywf : PyVal → Bool
  | .null => true
  | .bool _ => true
  | .int _ => true
  | .str _ => true
  | .list xs => pywfElems xs
  | .dict kvs => nodupKeys kvs && pywfMembers kvs

/-- `pywf` on all elements of a list. -/
def pywfElems : List PyVal → Bool
  | [] => true
  | x :: xs => pywf x && pywfElems xs

/-- `pywf` on all values of a member list. -/
def pywfMembers : List (String × PyVal) → Bool
  | [] => true
  | (_, v) :: rest => pywf v && pywfMembers rest

end

/-! ### `json.loads`

A recursive-descent JSON parser over character lists, modelling CPython's
`json.loads` on the documents this program exchanges (ints as the numeric
type; floats are unmodelled since no message carries one).  `parseVal`
takes explicit fuel; `loads` supplies fuel `input.length + 1`, which is
shown sufficient below. -/

/-- Skip insignificant whitespace. -/
def skipWs : List Char → List Char
  | c :: r => if isWsC c then skipWs r else c :: r
  | [] => []

/-- Does the input start with a decimal digit? -/
def digitStart : List Char → Bool
  | c :: _ => isDigitC c
  | [] => false

/-- Consume a maximal run of decimal digits, accumulating their value. -/
def parseDigits (acc : Nat) : List Char → Nat × List Char
  | c :: cs => if isDigitC c then parseDigits (10 * acc + (c.toNat - 48)) cs else (acc, c :: cs)
  | [] => (acc, [])

/-- Numeric value of a hex digit character, if any. -/
def hexVal (c : Char) : Option Nat :=
  if 48 ≤ c.toNat && c.toNat ≤ 57 then some (c.toNat - 48)
  else if 97 ≤ c.toNat && c.toNat ≤ 102 then some (c.toNat - 87)
  else if 65 ≤ c.toNat && c.toNat ≤ 70 then some (c.toNat - 55)
  else none

/-- Parse the body of a JSON string after the opening quote, returning the
decoded characters and the input after the closing quote.  (Surrogate-pair
`\uXXXX` escapes are unmodelled; no message of this program uses them.) -/
def parseStrBody : List Char → Option (List Char × List Char)
  | [] => none
  | c :: rest =>
    if c = '"' then some ([], rest)
    else if c = '\\' then
      match rest with
      | [] => none
      | e :: rest' =>
        if e = 'u' then
          match rest' with
          | h1 :: h2 :: h3 :: h4 :: rest'' =>
            match hexVal h1, hexVal h2, hexVal h3, hexVal h4 with
            | some d1, some d2, some d3, some d4 =>
                (parseStrBody rest'').map fun p =>
                  (Char.ofNat (4096 * d1 + 256 * d2 + 16 * d3 + d4) :: p.1, p.2)
            | _, _, _, _ => none
          | _ => none
        else if e = '"' then (parseStrBody rest').map fun p => ('"' :: p.1, p.2)
        else if e = '\\' then (parseStrBody rest').map fun p => ('\\' :: p.1, p.2)
        else if e = '/' then (parseStrBody rest').map fun p => ('/' :: p.1, p.2)
        else if e = 'b' then (parseStrBody rest').map fun p => ('\x08' :: p.1, p.2)
        else if e = 'f' then (parseStrBody rest').map fun p => ('\x0c' :: p.1, p.2)
        else if e = 'n' then (parseStrBody rest').map fun p => ('\n' :: p.1, p.2)
        else if e = 'r' then (parseStrBody rest').map fun p => ('\r' :: p.1, p.2)
        else if e = 't' then (parseStrBody rest').map fun p => ('\t' :: p.1, p.2)
        else none
    else (parseStrBody rest).map fun p => (c :: p.1, p.2)

/-- `d[k] = v` on a Python dict: update in place if the key exists,
append otherwise (CPython dict semantics, insertion order kept). -/
def dictInsert : PyDict → String → PyVal → PyDict
  | [], k, v => [(k, v)]
  | (k', v') :: rest, k, v =>
      if k' == k then (k', v) :: rest else (k', v') :: dictInsert rest k v

/-- Build a dict from parsed members the way `json.loads` does: repeated
insertion, so a duplicated key keeps its first position with the last
value. -/
def buildDict (members : List (String × PyVal)) : PyDict :=
  members.foldl (fun d p => dictInsert d p.1 p.2) []

/-- Check that `lit` is a prefix of `r`; succeed with `v` and the rest. -/
def expectLit (lit : List Char) (r : List Char) (v : PyVal) : Option (PyVal × List Char) :=
  if lit.isPrefixOf r then some (v, r.drop lit.length) else none

mutual

/-- Parse one JSON value (fuel-indexed). -/
def parseVal : Nat → List Char → Option (PyVal × List Char)
  | 0, _ => none
  | fuel + 1, input =>
    match skipWs input with
    | [] => none
    | c :: r =>
      if c = 'n' then expectLit ['u', 'l', 'l'] r .null
      else if c = 't' then expectLit ['r', 'u', 'e'] r (.bool true)
      else if c = 'f' then expectLit ['a', 'l', 's', 'e'] r (.bool false)
      else if c = '"' then (parseStrBody r).map fun p => (PyVal.str ⟨p.1⟩, p.2)
      else if c = '[' then (parseElems fuel r).map fun p => (PyVal.list p.1, p.2)
      else if c = '\x7b' then (parseMembers fuel r).map fun p => (PyVal.dict (buildDict p.1), p.2)
      else if c = '-' then
        if digitStart r then
          let p := parseDigits 0 r
          some (PyVal.int (-(p.1 : Int)), p.2)
        else none
      else if isDigitC c then
        let p := parseDigits 0 (c :: r)
        some (PyVal.int (p.1 : Int), p.2)
      else none

/-- Parse the elements of a JSON array after the opening bracket. -/
def parseElems : Nat → List Char → Option (List PyVal × List Char)
  | 0, _ => none
  | fuel + 1, input =>
    match skipWs input with
    | [] => none
    | c :: r =>
      if c = ']' then some ([], r)
      else
        match parseVal fuel (c :: r) with
        | none => none
        | some (v, r1) =>
          match skipWs r1 with
          | [] => none
          | c2 :: r2 =>
            if c2 = ',' then (parseElems fuel r2).map fun p => (v :: p.1, p.2)
            else if c2 = ']' then some ([v], r2)
            else none

/-- Parse the members of a JSON object after the opening brace. -/
def parseMembers : Nat → List Char → Option (List (String × PyVal) × List Char)
  | 0, _ => none
  | fuel + 1, input =>
    match skipWs input with
    | [] => none
    | c :: r =>
      if c = '\x7d' then some ([], r)
      else if c = '"' then
        match parseStrBody r with
        | none => none
        | some (k, r1) =>
          match skipWs r1 with
          | [] => none
          | c2 :: r2 =>
            if c2 = ':' then
              match parseVal fuel r2 with
              | none => none
              | some (v, r3) =>
                match skipWs r3 with
                | [] => none
                | c3 :: r4 =>
                  if c3 = ',' then (parseMembers fuel r4).map fun p => ((⟨k⟩, v) :: p.1, p.2)
                  else if c3 = '\x7d' then some ([(⟨k⟩, v)], r4)
                  else none
            else none
      else none

end

/-- `json.loads`: parse a complete document, allowing trailing whitespace
only. -/
def loads (s : List Char) : Option PyVal :=
  match parseVal (s.length + 1) s with
  | some (v, rest) => if (skipWs rest).isEmpty then some v else none
  | none => none

/-! ### UTF-8 (`str.encode("utf-8")` / `bytes.decode("utf-8")`) -/

/-- UTF-8 encoding of one character. -/
def utf8EncodeChar (c : Char) : List Nat :=
  let n := c.toNat
  if n < 128 then [n]
  else if n < 2048 then [192 + n / 64, 128 + n % 64]
  else if n < 65536 then [224 + n / 4096, 128 + n / 64 % 64, 128 + n % 64]
  else [240 + n / 262144, 128 + n / 4096 % 64, 128 + n / 64 % 64, 128 + n % 64]

/-- UTF-8 encoding of a string (`s.encode("utf-8")`). -/
def utf8Encode (s : List Char) : List Nat := s.flatMap utf8EncodeChar

/-- Is `b` a UTF-8 continuation byte? -/
def utf8Cont (b : Nat) : Bool := 128 ≤ b && b < 192

mutual

/-- Strict UTF-8 decoding (`bytes.decode("utf-8")`): rejects bad leads,
bad continuations, overlong forms, surrogates, and out-of-range values. -/
def utf8Decode : List Nat → Option (List Char)
  | [] => some []
  | b0 :: rest =>
    if b0 < 128 then (utf8Decode rest).map fun cs => Char.ofNat b0 :: cs
    else if b0 < 192 then none
    else if b0 < 224 then utf8Dec2 b0 rest
    else if b0 < 240 then utf8Dec3 b0 rest
    else if b0 < 248 then utf8Dec4 b0 rest
    else none

/-- Continuation of a two-byte UTF-8 sequence with lead byte `b0`. -/
def utf8Dec2 (b0 : Nat) : List Nat → Option (List Char)
  | b1 :: rest =>
    if utf8Cont b1 then
      let n := (b0 - 192) * 64 + (b1 - 128)
      if 128 ≤ n then (utf8Decode rest).map fun cs => Char.ofNat n :: cs else none
    else none
  | [] => none

/-- Continuation of a three-byte UTF-8 sequence with lead byte `b0`. -/
def utf8Dec3 (b0 : Nat) : List Nat → Option (List Char)
  | b1 :: b2 :: rest =>
    if utf8Cont b1 && utf8Cont b2 then
      let n := (b0 - 224) * 4096 + (b1 - 128) * 64 + (b2 - 128)
      if 2048 ≤ n && !(55296 ≤ n && n < 57344) then
        (utf8Decode rest).map fun cs => Char.ofNat n :: cs
      else none
    else none
  | _ => none

/-- Continuation of a four-byte UTF-8 sequence with lead byte `b0`. -/
def utf8Dec4 (b0 : Nat) : List Nat → Option (List Char)
  | b1 :: b2 :: b3 :: rest =>
    if utf8Cont b1 && utf8Cont b2 && utf8Cont b3 then
      let n := (b0 - 240) * 262144 + (b1 - 128) * 4096 + (b2 - 128) * 64 + (b3 - 128)
      if 65536 ≤ n && n < 1114112 then
        (utf8Decode rest).map fun cs => Char.ofNat n :: cs
      else none
    else none
  | _ => none

end

/-! ### The 4-byte length prefix (`struct.pack("@I", n)` / `struct.unpack`)

`"@I"` is the native-endian unsigned 32-bit layout; the platforms this
program targets are little-endian. -/

/-- `struct.pack("@I", n)` for `n < 2^32`: four little-endian bytes. -/
def pack4 (n : Nat) : List Nat :=
  [n % 256, n / 256 % 256, n / 65536 % 256, n / 16777216 % 256]

/-- `struct.unpack("@I", bs)[0]`: requires exactly four bytes
(`struct.error` otherwise, modelled as `none`). -/
def unpack4 : List Nat → Option Nat
  | [b0, b1, b2, b3] => some (b0 + 256 * b1 + 65536 * b2 + 16777216 * b3)
  | _ => none

/-! ### `native_messaging.py` — class `NativeMessaging` -/

/-- An encoded frame: the dict `{"length": ..., "content": ...}` returned
by `encode_message`. -/
structure Frame where
  length : List Nat
  content : List Nat

namespace NativeMessaging

/-- `NativeMessaging.get_message(fd)` (native_messaging.py:12-28).
Reads 4 bytes; a zero-length read runs `sys.exit(0)` (`SystemExit(0)`);
otherwise unpacks the native-endian length, reads that many bytes,
UTF-8-decodes and `json.loads` them. -/
def get_message (fd : List Nat) : Except PyExc (PyVal × List Nat) :=
  let raw_length := fd.take 4
  if raw_length.length = 0 then .error (.systemExit 0)
  else
    match unpack4 raw_length with
    | none => .error .structError
    | some message_length =>
      let after := fd.drop 4
      let raw_message := after.take message_length
      match utf8Decode raw_message with
      | none => .error .unicodeDecodeError
      | some chars =>
        match loads chars with
        | none => .error .jsonDecodeError
        | some v => .ok (v, after.drop message_length)

/-- `NativeMessaging.encode_message(message_content, is_new_protocol)`
(native_messaging.py:30-53).  New protocol serializes only
`{"method": ..., "params": ...}` (`params` defaulting to `{}`); old
protocol serializes the whole dict.  `struct.pack("@I", ...)` raises
`struct.error` if the payload is ≥ 2^32 bytes. -/
def encode_message (message_content : PyDict) (is_new_protocol : Bool := false) :
    Except PyExc Frame :=
  let payload : PyVal :=
    if is_new_protocol then
      .dict [("method", pyGetD message_content "method" .null),
             ("params", pyGetD message_content "params" (.dict []))]
    else .dict message_content
  let encoded_content := utf8Encode (dumpVal payload)
  if encoded_content.length < 4294967296 then
    .ok ⟨pack4 encoded_content.length, encoded_content⟩
  else .error .structError

/-- `NativeMessaging.send_message(fd, encoded_message)`
(native_messaging.py:55-66): writes the length bytes then the content
bytes; returns the stream with the frame appended. -/
def send_message (fd : List Nat) (encoded_message : Frame) : List Nat :=
  fd ++ encoded_message.length ++ encoded_message.content

end NativeMessaging

/-! ### `base_api.py` — protocol-session logic of class `BaseApi`

The session's incoming traffic is modelled at message level: the decoded
JSON objects `get_message` yields, in order (the codec itself is verified
separately).  Wall-clock time is in milliseconds. -/

/-- The mutable session state the protocol logic touches. -/
structure Session where
  is_new_protocol : Bool

/-- `method.replace("XVPN.", "")`: remove every (non-overlapping,
left-to-right) occurrence of the literal substring `"XVPN."`. -/
def replaceXVPN : List Char → List Char
  | 'X' :: 'V' :: 'P' :: 'N' :: '.' :: rest => replaceXVPN rest
  | c :: rest => c :: replaceXVPN rest
  | [] => []

/-- `BaseApi._build_request(method, params)` (base_api.py:174-196). -/
def Session.buildRequest (s : Session) (method : String) (params : Option PyDict) : PyDict :=
  if s.is_new_protocol then
    [("method", .str ⟨replaceXVPN method.data⟩),
     ("params", .dict (params.getD []))]
  else
    [("jsonrpc", .str "2.0"),
     ("method", .str method),
     ("params", .dict (params.getD [])),
     ("id", .int 200)]

/-- `message.get("type") in ("method", "result")`. -/
def typeIsMethodOrResult (m : PyDict) : Bool :=
  match pyLookup m "type" with
  | some (.str s) => s == "method" || s == "result"
  | _ => false

/-- The response-classification test of `BaseApi._get_response`
(base_api.py:234): `message.get("type") in ("method", "result") or
not message.get("name")`. -/
def isResponse (m : PyDict) : Bool :=
  typeIsMethodOrResult m || !pyTruthy (pyGetD m "name" .null)

/-- `BaseApi._get_response` (base_api.py:221-237) over the messages the
daemon will send, in order.  `none` means every message was skipped as an
event and the loop would block on the next read. -/
def getResponse : List PyDict → Option (Except PyExc PyDict)
  | [] => none
  | m :: rest =>
    if isResponse m then
      match pyLookup m "error" with
      | some e => some (.error (.daemonError e))
      | none => some (.ok m)
    else getResponse rest

/-- Outcome of `BaseApi._call`. -/
inductive CallOutcome where
  | blocked
  | errored (e : PyExc)
  | returned (m : PyDict)

/-- `BaseApi._call(message, params)` (base_api.py:239-252): build the
request, encode and send it, then wait for the response.  Returns the
outcome, the bytes written to the child's stdin, and the session (no field
of `self` is assigned anywhere in `_build_request`, `_send_message`,
`_get_response` or `_call`). -/
def Session.call (s : Session) (method : String) (params : Option PyDict)
    (incoming : List PyDict) : CallOutcome × List Nat × Session :=
  let req := s.buildRequest method params
  match NativeMessaging.encode_message req s.is_new_protocol with
  | .error e => (.errored e, [], s)
  | .ok f =>
    let out := NativeMessaging.send_message [] f
    match getResponse incoming with
    | none => (.blocked, out, s)
    | some (.error e) => (.errored e, out, s)
    | some (.ok m) => (.returned m, out, s)

/-- `BaseApi.close` (base_api.py:440-445): sleeps and kills the child
process; assigns no session field. -/
def Session.close (s : Session) : Session := s

/-- Result of the `while` loop of `BaseApi._wait_for_daemon`. -/
structure WaitResult where
  connected : Bool
  is_new_protocol : Bool
  finish : Nat

/-- The `while` loop of `BaseApi._wait_for_daemon` (base_api.py:153-160).
`msgs k` is the `k`-th message `_get_message` yields and `delay k` the
time (ms) that blocking read takes; `time.sleep(0.3)` adds 300 ms.  The
loop runs while `not connected and time.time() - start_t < timeout`. -/
def wfdLoop (msgs : Nat → PyDict) (delay : Nat → Nat) (start timeout : Nat)
    (flag0 : Bool) (k now : Nat) : WaitResult :=
  if h : now - start < timeout then
    let m := msgs k
    let tRead := now + delay k
    if pyTruthy (pyGetD m "connected" .null) then
      ⟨true, pyEqInt (pyGetD m "browser_helper_protocol" (.int 1)) 2, tRead + 300⟩
    else
      wfdLoop msgs delay start timeout flag0 (k + 1) (tRead + 300)
  else ⟨false, flag0, now⟩
  termination_by start + timeout - now
  decreasing_by omega

/-- `BaseApi._wait_for_daemon(timeout)` (base_api.py:143-162): run the
loop from `flag0` (the `is_new_protocol = False` set in `__init__`); if no
truthy `connected` message arrived, raise
`TimeoutError("Can't connect to ExpressVPN daemon")`; otherwise the
session's `is_new_protocol` is the loop's result. -/
def waitForDaemon (msgs : Nat → PyDict) (delay : Nat → Nat) (start timeout : Nat)
    (flag0 : Bool) : Except PyExc Session :=
  let r := wfdLoop msgs delay start timeout flag0 0 start
  if r.connected then .ok ⟨r.is_new_protocol⟩ else .error .timeoutError

/-- A location entry as `BaseApi.get_location_id` reads it: the `"name"`
and `"id"` fields of one element of `self._locations`. -/
structure LocEntry where
  name : String
  id : PyVal

/-- `str.lower()` (ASCII; the location names this program compares are
ASCII). -/
def lowerStr (s : String) : String := ⟨s.data.map Char.toLower⟩

/-- Python substring containment `needle in hay`. -/
def containsSub : List Char → List Char → Bool
  | needle, [] => needle.isEmpty
  | needle, c :: rest => needle.isPrefixOf (c :: rest) || containsSub needle rest

/-- `BaseApi.get_location_id(name)` (base_api.py:337-358): first location
whose name equals `name` case-insensitively; on failure a `ValueError`
whose message suggests the first location whose name contains `name`
case-insensitively, if any. -/
def get_location_id (locations : List LocEntry) (name : String) : Except PyExc PyVal :=
  match locations.find? (fun l => lowerStr l.name == lowerStr name) with
  | some found => .ok found.id
  | none =>
    let similar := locations.find? (fun l => containsSub (lowerStr name).data (lowerStr l.name).data)
    let msg := "Country " ++ name ++ " not found. " ++
      (match similar with
       | some l => "Did you mean " ++ l.name ++ "?"
       | none => "")
    .error (.valueError msg)

/-! ### Round-trip: decimal numbers -/

theorem digChar_toNat {d : Nat} (h : d < 10) : (digChar d).toNat = 48 + d := by
  interval_cases d <;> decide

theorem isDigitC_digChar {d : Nat} (h : d < 10) : isDigitC (digChar d) = true := by
  simp [isDigitC, digChar_toNat h]; omega

theorem natDigitsRev_digits : ∀ n : Nat, ∀ c ∈ natDigitsRev n, isDigitC c = true := by
  intro n
  induction n using Nat.strong_induction_on with
  | _ n ih =>
    rw [natDigitsRev]
    split
    · simp
    · rename_i hn
      intro c hc
      rcases List.mem_cons.mp hc with h | h
      · subst h; exact isDigitC_digChar (Nat.mod_lt _ (by omega))
      · exact ih (n / 10) (Nat.div_lt_self (Nat.pos_of_ne_zero hn) (by omega)) c h

theorem printNat_digits (n : Nat) : ∀ c ∈ printNat n, isDigitC c = true := by
  unfold printNat
  split
  · intro c hc; simp at hc; subst hc; decide
  · intro c hc; exact natDigitsRev_digits n c (List.mem_reverse.mp hc)

theorem printNat_ne_nil (n : Nat) : printNat n ≠ [] := by
  unfold printNat
  split
  · simp
  · rename_i hn
    rw [natDigitsRev]
    simp [hn]

theorem parseDigits_run : ∀ (A : List Char), (∀ c ∈ A, isDigitC c = true) → ∀ acc rest,
    parseDigits acc (A ++ rest) =
      parseDigits (A.foldl (fun a c => 10 * a + (c.toNat - 48)) acc) rest := by
  intro A
  induction A with
  | nil => intro _ acc rest; simp
  | cons c A ih =>
    intro hA acc rest
    have hc : isDigitC c = true := hA c (List.mem_cons_self c A)
    simp only [List.cons_append, parseDigits, hc, if_pos]
    exact ih (fun c hc => hA c (List.mem_cons_of_mem _ hc)) _ rest

theorem parseDigits_stop (acc : Nat) (rest : List Char) (h : digitStart rest = false) :
    parseDigits acc rest = (acc, rest) := by
  cases rest with
  | nil => rfl
  | cons c r => simp [digitStart] at h; simp [parseDigits, h]

theorem foldl_natDigitsRev : ∀ n acc : Nat,
    ((natDigitsRev n).reverse).foldl (fun a c => 10 * a + (c.toNat - 48)) acc =
      acc * 10 ^ (natDigitsRev n).length + n := by
  intro n
  induction n using Nat.strong_induction_on with
  | _ n ih =>
    intro acc
    rw [natDigitsRev]
    split
    · rename_i hn; subst hn; simp
    · rename_i hn
      rw [List.reverse_cons, List.foldl_append,
        ih (n / 10) (Nat.div_lt_self (Nat.pos_of_ne_zero hn) (by omega)) acc]
      simp only [List.foldl_cons, List.foldl_nil, List.length_cons]
      rw [digChar_toNat (Nat.mod_lt _ (by omega)), pow_succ]
      generalize (10 : Nat) ^ (natDigitsRev (n / 10)).length = P
      ring_nf
      omega

theorem printNat_val (n : Nat) :
    (printNat n).foldl (fun a c => 10 * a + (c.toNat - 48)) 0 = n := by
  unfold printNat
  split
  · rename_i h; subst h; decide
  · rw [foldl_natDigitsRev]; simp

theorem parseDigits_printNat (n : Nat) (rest : List Char) (h : digitStart rest = false) :
    parseDigits 0 (printNat n ++ rest) = (n, rest) := by
  rw [parseDigits_run (printNat n) (printNat_digits n) 0 rest, printNat_val,
    parseDigits_stop _ _ h]

/-! ### Round-trip: string bodies -/

theorem hexVal_hexChar {d : Nat} (h : d < 16) : hexVal (hexChar d) = some d := by
  interval_cases d <;> decide

theorem escStr_cons (c : Char) (s : List Char) :
    escStr (c :: s) = escapeChar c ++ escStr s := by simp [escStr]

theorem parseStrBody_escStr : ∀ (s : List Char) (rest : List Char),
    parseStrBody (escStr s ++ '"' :: rest) = some (s, rest) := by
  intro s
  induction s with
  | nil =>
    intro rest
    rw [show escStr [] = [] from rfl, List.nil_append, parseStrBody.eq_def]
    simp
  | cons c s ih =>
    intro rest
    rw [escStr_cons, List.append_assoc]
    by_cases h1 : c = '"'
    · subst h1
      rw [show escapeChar '"' = ['\\', '"'] from rfl]
      simp only [List.cons_append, List.nil_append]
      rw [parseStrBody.eq_def]; simp [ih]
    · by_cases h2 : c = '\\'
      · subst h2
        rw [show escapeChar '\\' = ['\\', '\\'] from rfl]
        simp only [List.cons_append, List.nil_append]
        rw [parseStrBody.eq_def]; simp [ih]
      · by_cases h3 : c = '\x08'
        · subst h3
          rw [show escapeChar '\x08' = ['\\', 'b'] from rfl]
          simp only [List.cons_append, List.nil_append]
          rw [parseStrBody.eq_def]; simp [ih]
        · by_cases h4 : c = '\x0c'
          · subst h4
            rw [show escapeChar '\x0c' = ['\\', 'f'] from rfl]
            simp only [List.cons_append, List.nil_append]
            rw [parseStrBody.eq_def]; simp [ih]
          · by_cases h5 : c = '\n'
            · subst h5
              rw [show escapeChar '\n' = ['\\', 'n'] from rfl]
              simp only [List.cons_append, List.nil_append]
              rw [parseStrBody.eq_def]; simp [ih]
            · by_cases h6 : c = '\r'
              · subst h6
                rw [show escapeChar '\r' = ['\\', 'r'] from rfl]
                simp only [List.cons_append, List.nil_append]
                rw [parseStrBody.eq_def]; simp [ih]
              · by_cases h7 : c = '\t'
                · subst h7
                  rw [show escapeChar '\t' = ['\\', 't'] from rfl]
                  simp only [List.cons_append, List.nil_append]
                  rw [parseStrBody.eq_def]; simp [ih]
                · by_cases h8 : c.toNat < 32
                  · have hesc : escapeChar c =
                        ['\\', 'u', '0', '0', hexChar (c.toNat / 16), hexChar (c.toNat % 16)] := by
                      simp [escapeChar, h1, h2, h3, h4, h5, h6, h7, h8]
                    have e1 : hexVal (hexChar (c.toNat / 16)) = some (c.toNat / 16) :=
                      hexVal_hexChar (by omega)
                    have e2 : hexVal (hexChar (c.toNat % 16)) = some (c.toNat % 16) :=
                      hexVal_hexChar (Nat.mod_lt _ (by omega))
                    rw [hesc]
                    simp only [List.cons_append, List.nil_append]
                    rw [parseStrBody.eq_def]
                    simp [e1, e2, ih, show hexVal '0' = some 0 from rfl]
                    rw [show 16 * (c.toNat / 16) + c.toNat % 16 = c.toNat by omega,
                      Char.ofNat_toNat]
                  · have hesc : escapeChar c = [c] := by
                      simp [escapeChar, h1, h2, h3, h4, h5, h6, h7, h8]
                    rw [hesc]
                    simp only [List.cons_append, List.nil_append]
                    rw [parseStrBody.eq_def]
                    simp [h1, h2, ih]

theorem isDigitC_ne {c : Char} (h : isDigitC c = true) (d : Char) (hd : isDigitC d = false) :
    c ≠ d := fun e => by subst e; rw [h] at hd; exact Bool.noConfusion hd

theorem isWsC_of_digit {c : Char} (h : isDigitC c = true) : isWsC c = false := by
  simp only [isWsC, Bool.or_eq_false_iff, decide_eq_false_iff_not]
  exact ⟨⟨⟨isDigitC_ne h ' ' (by decide), isDigitC_ne h '\t' (by decide)⟩,
    isDigitC_ne h '\n' (by decide)⟩, isDigitC_ne h '\r' (by decide)⟩

theorem skipWs_cons_not {c : Char} {r : List Char} (h : isWsC c = false) :
    skipWs (c :: r) = c :: r := by simp [skipWs, h]

theorem skipWs_cons_sp (l : List Char) : skipWs (' ' :: l) = skipWs l := by
  simp [skipWs, isWsC]

theorem parseVal_ws {f : Nat} (hf : 0 < f) (l : List Char) :
    parseVal f (' ' :: l) = parseVal f l := by
  cases f with
  | zero => omega
  | succ g => rw [parseVal.eq_2, parseVal.eq_2, skipWs_cons_sp]

theorem parseElems_ws {f : Nat} (hf : 0 < f) (l : List Char) :
    parseElems f (' ' :: l) = parseElems f l := by
  cases f with
  | zero => omega
  | succ g => rw [parseElems.eq_2, parseElems.eq_2, skipWs_cons_sp]

theorem parseMembers_ws {f : Nat} (hf : 0 < f) (l : List Char) :
    parseMembers f (' ' :: l) = parseMembers f l := by
  cases f with
  | zero => omega
  | succ g => rw [parseMembers.eq_2, parseMembers.eq_2, skipWs_cons_sp]

theorem psize_pos (v : PyVal) : 0 < psize v := by
  cases v <;> simp [psize]

theorem psizeElems_pos (xs : List PyVal) : 0 < psizeElems xs := by
  cases xs <;> simp [psizeElems]

theorem psizeMembers_pos (kvs : List (String × PyVal)) : 0 < psizeMembers kvs := by
  cases kvs with
  | nil => simp [psizeMembers]
  | cons p rest => obtain ⟨k, v⟩ := p; simp [psizeMembers]

theorem dumpVal_head (v : PyVal) :
    ∃ c cs, dumpVal v = c :: cs ∧ isWsC c = false ∧ c ≠ ']' := by
  cases v with
  | null => exact ⟨'n', _, rfl, by decide, by decide⟩
  | bool b => cases b with
    | true => exact ⟨'t', _, rfl, by decide, by decide⟩
    | false => exact ⟨'f', _, rfl, by decide, by decide⟩
  | str s => exact ⟨'"', _, rfl, by decide, by decide⟩
  | list xs => exact ⟨'[', _, rfl, by decide, by decide⟩
  | dict kvs => exact ⟨'\x7b', _, rfl, by decide, by decide⟩
  | int n =>
    rw [dumpVal]
    unfold printInt
    split
    · exact ⟨'-', _, rfl, by decide, by decide⟩
    · rcases hp : printNat n.natAbs with _ | ⟨c, cs⟩
      · exact absurd hp (printNat_ne_nil _)
      · have hc : isDigitC c = true := by
          apply printNat_digits n.natAbs
          rw [hp]; exact List.mem_cons_self c cs
        exact ⟨c, cs, rfl, isWsC_of_digit hc, isDigitC_ne hc ']' (by decide)⟩

theorem strMk_data (s : String) : String.mk s.data = s := by cases s; rfl

theorem dictInsert_append {d : PyDict} {k : String} (v : PyVal)
    (h : d.any (fun p => p.1 == k) = false) : dictInsert d k v = d ++ [(k, v)] := by
  induction d with
  | nil => rfl
  | cons p rest ih =>
    obtain ⟨k', v'⟩ := p
    simp only [List.any_cons, Bool.or_eq_false_iff] at h
    simp only [dictInsert, h.1, Bool.false_eq_true, if_neg, List.cons_append, if_false,
      ite_false, reduceIte]
    rw [ih h.2]

theorem buildDict_go : ∀ (l : List (String × PyVal)) (acc : PyDict),
    (∀ p ∈ l, acc.any (fun q => q.1 == p.1) = false) → nodupKeys l = true →
    l.foldl (fun d p => dictInsert d p.1 p.2) acc = acc ++ l := by
  intro l
  induction l with
  | nil => intro acc _ _; simp
  | cons p rest ih =>
    intro acc hacc hnd
    obtain ⟨k, v⟩ := p
    simp only [nodupKeys, Bool.and_eq_true, Bool.not_eq_true'] at hnd
    simp only [List.foldl_cons]
    rw [dictInsert_append v (hacc (k, v) (List.mem_cons_self _ _))]
    rw [ih (acc ++ [(k, v)]) ?_ hnd.2]
    · simp
    · intro q hq
      simp only [List.any_append, Bool.or_eq_false_iff]
      refine ⟨hacc q (List.mem_cons_of_mem _ hq), ?_⟩
      simp only [List.any_cons, List.any_nil, Bool.or_false]
      have hr := List.any_eq_false.mp hnd.1 q hq
      have hqk : (q.1 == k) = false := by
        simpa using hr
      simp only [beq_eq_false_iff_ne] at hqk ⊢
      exact fun e => hqk e.symm

theorem buildDict_nodup {l : List (String × PyVal)} (h : nodupKeys l = true) :
    buildDict l = l := by
  unfold buildDict
  rw [buildDict_go l [] (by intro p _; rfl) h]
  simp

theorem digitStart_cons (c : Char) (l : List Char) : digitStart (c :: l) = isDigitC c := rfl

theorem digitStart_printNat (m : Nat) (rest : List Char) :
    digitStart (printNat m ++ rest) = true := by
  rcases hp : printNat m with _ | ⟨c, cs⟩
  · exact absurd hp (printNat_ne_nil m)
  · have hc : isDigitC c = true := printNat_digits m c (by rw [hp]; exact List.mem_cons_self c cs)
    simp [digitStart, hc]

theorem parse_dump_master : ∀ fuel : Nat,
    (∀ (v : PyVal) (rest : List Char), psize v ≤ fuel → pywf v = true →
      digitStart rest = false → parseVal fuel (dumpVal v ++ rest) = some (v, rest)) ∧
    (∀ (xs : List PyVal) (rest : List Char), psizeElems xs ≤ fuel → pywfElems xs = true →
      parseElems fuel (dumpElems xs ++ ']' :: rest) = some (xs, rest)) ∧
    (∀ (kvs : List (String × PyVal)) (rest : List Char), psizeMembers kvs ≤ fuel →
      pywfMembers kvs = true →
      parseMembers fuel (dumpMembers kvs ++ '\x7d' :: rest) = some (kvs, rest)) := by
  intro fuel
  induction fuel with
  | zero =>
    refine ⟨fun v _ h _ _ => absurd h (by have := psize_pos v; omega),
      fun xs _ h _ => absurd h (by have := psizeElems_pos xs; omega),
      fun kvs _ h _ => absurd h (by have := psizeMembers_pos kvs; omega)⟩
  | succ fuel ih =>
    obtain ⟨ihP, ihQ, ihR⟩ := ih
    refine ⟨?_, ?_, ?_⟩
    -- P: values
    · intro v rest hsz hwf hds
      cases v with
      | null =>
        rw [show dumpVal .null = 'n' :: "ull".data from rfl]
        simp only [List.cons_append, List.nil_append]
        rw [parseVal.eq_2, skipWs_cons_not (by decide)]
        simp [expectLit, List.isPrefixOf]
      | bool b =>
        cases b with
        | true =>
          rw [show dumpVal (.bool true) = 't' :: "rue".data from rfl]
          simp only [List.cons_append, List.nil_append]
          rw [parseVal.eq_2, skipWs_cons_not (by decide)]
          simp [expectLit, List.isPrefixOf]
        | false =>
          rw [show dumpVal (.bool false) = 'f' :: "alse".data from rfl]
          simp only [List.cons_append, List.nil_append]
          rw [parseVal.eq_2, skipWs_cons_not (by decide)]
          simp [expectLit, List.isPrefixOf]
      | str s =>
        rw [show dumpVal (.str s) = '"' :: escStr s.data ++ ['"'] from rfl]
        simp only [List.cons_append, List.append_assoc, List.nil_append]
        rw [parseVal.eq_2, skipWs_cons_not (by decide)]
        simp [parseStrBody_escStr s.data rest, strMk_data]
      | int n =>
        rw [show dumpVal (.int n) = printInt n from rfl]
        unfold printInt
        by_cases hn : n < 0
        · rw [if_pos hn]
          simp only [List.cons_append]
          rw [parseVal.eq_2, skipWs_cons_not (by decide)]
          simp only [digitStart_printNat, parseDigits_printNat n.natAbs rest hds]
          simp
          rw [abs_of_neg hn, neg_neg]
        · rw [if_neg hn]
          rcases hp : printNat n.natAbs with _ | ⟨c, cs⟩
          · exact absurd hp (printNat_ne_nil _)
          · have hc : isDigitC c = true :=
              printNat_digits _ c (by rw [hp]; exact List.mem_cons_self c cs)
            simp only [hp, List.cons_append]
            rw [parseVal.eq_2, skipWs_cons_not (isWsC_of_digit hc)]
            have hback : c :: (cs ++ rest) = printNat n.natAbs ++ rest := by rw [hp]; simp
            simp only [isDigitC_ne hc 'n' (by decide), isDigitC_ne hc 't' (by decide),
              isDigitC_ne hc 'f' (by decide), isDigitC_ne hc '"' (by decide),
              isDigitC_ne hc '[' (by decide), isDigitC_ne hc '\x7b' (by decide),
              isDigitC_ne hc '-' (by decide), ite_false, if_false, hc, ite_true, if_true,
              reduceIte]
            rw [hback, parseDigits_printNat n.natAbs rest hds]
            simp
            omega
      | list xs =>
        have hsz' : psizeElems xs ≤ fuel := by
          rw [psize] at hsz; omega
        have hwf' : pywfElems xs = true := by rw [pywf] at hwf; exact hwf
        rw [show dumpVal (.list xs) = '[' :: dumpElems xs ++ [']'] from rfl]
        simp only [List.cons_append, List.append_assoc, List.nil_append]
        rw [parseVal.eq_2, skipWs_cons_not (by decide)]
        simp [ihQ xs rest hsz' hwf']
      | dict kvs =>
        have hsz' : psizeMembers kvs ≤ fuel := by
          rw [psize] at hsz; omega
        have hwf' : nodupKeys kvs = true ∧ pywfMembers kvs = true := by
          rw [pywf] at hwf; simpa using hwf
        rw [show dumpVal (.dict kvs) = '\x7b' :: dumpMembers kvs ++ ['\x7d'] from rfl]
        simp only [List.cons_append, List.append_assoc, List.nil_append]
        rw [parseVal.eq_2, skipWs_cons_not (by decide)]
        simp [ihR kvs rest hsz' hwf'.2, buildDict_nodup hwf'.1]
    -- Q: array elements
    · intro xs rest hsz hwf
      cases xs with
      | nil =>
        rw [show dumpElems [] = [] from rfl, List.nil_append]
        rw [parseElems.eq_2, skipWs_cons_not (by decide)]
        simp
      | cons x xs' =>
        have hwfx : pywf x = true := by
          simp only [pywfElems, Bool.and_eq_true] at hwf; exact hwf.1
        have hwfxs : pywfElems xs' = true := by
          simp only [pywfElems, Bool.and_eq_true] at hwf; exact hwf.2
        obtain ⟨c, cs, hdump, hws, hne⟩ := dumpVal_head x
        cases xs' with
        | nil =>
          have hszx : psize x ≤ fuel := by
            rw [psizeElems] at hsz
            have := psizeElems_pos ([] : List PyVal)
            omega
          rw [show dumpElems [x] = dumpVal x from rfl]
          rw [hdump]
          simp only [List.cons_append]
          rw [parseElems.eq_2, skipWs_cons_not hws]
          have hpv : parseVal fuel (c :: (cs ++ ']' :: rest)) = some (x, ']' :: rest) := by
            rw [show c :: (cs ++ ']' :: rest) = dumpVal x ++ ']' :: rest by rw [hdump]; simp]
            exact ihP x (']' :: rest) hszx hwfx (by rw [digitStart_cons]; decide)
          simp only [hne, ite_false, if_false, reduceIte, hpv]
          rw [skipWs_cons_not (by decide)]
          simp
        | cons y xs'' =>
          have hszx : psize x ≤ fuel := by rw [psizeElems] at hsz; omega
          have hszy : psizeElems (y :: xs'') ≤ fuel := by rw [psizeElems] at hsz; omega
          rw [show dumpElems (x :: y :: xs'') = dumpVal x ++ ',' :: ' ' :: dumpElems (y :: xs'')
            from rfl]
          rw [hdump]
          simp only [List.cons_append, List.append_assoc]
          rw [parseElems.eq_2, skipWs_cons_not hws]
          have hpv : parseVal fuel (c :: (cs ++ ',' :: ' ' :: (dumpElems (y :: xs'') ++ ']' :: rest)))
              = some (x, ',' :: ' ' :: (dumpElems (y :: xs'') ++ ']' :: rest)) := by
            rw [show c :: (cs ++ ',' :: ' ' :: (dumpElems (y :: xs'') ++ ']' :: rest))
                = dumpVal x ++ ',' :: ' ' :: (dumpElems (y :: xs'') ++ ']' :: rest) by
              rw [hdump]; simp]
            exact ihP x _ hszx hwfx (by rw [digitStart_cons]; decide)
          simp only [hne, ite_false, if_false, reduceIte, hpv]
          rw [skipWs_cons_not (by decide)]
          have hfpos : 0 < fuel := by have := psizeElems_pos (y :: xs''); omega
          simp only [reduceIte, ite_true]
          rw [parseElems_ws hfpos, ihQ (y :: xs'') rest hszy hwfxs]
          simp
    -- R: object members
    · intro kvs rest hsz hwf
      cases kvs with
      | nil =>
        rw [show dumpMembers [] = [] from rfl, List.nil_append]
        rw [parseMembers.eq_2, skipWs_cons_not (by decide)]
        simp
      | cons p kvs' =>
        obtain ⟨k, v⟩ := p
        have hwfv : pywf v = true := by
          simp only [pywfMembers, Bool.and_eq_true] at hwf; exact hwf.1
        have hwfr : pywfMembers kvs' = true := by
          simp only [pywfMembers, Bool.and_eq_true] at hwf; exact hwf.2
        cases kvs' with
        | nil =>
          have hszv : psize v ≤ fuel := by
            rw [psizeMembers] at hsz; omega
          have hfpos : 0 < fuel := by have := psize_pos v; omega
          rw [show dumpMembers [(k, v)] = '"' :: escStr k.data ++ '"' :: ':' :: ' ' :: dumpVal v
            from rfl]
          simp only [List.cons_append, List.append_assoc]
          rw [parseMembers.eq_2, skipWs_cons_not (by decide)]
          simp only [reduceIte, ite_true, ite_false, reduceCtorEq]
          rw [parseStrBody_escStr k.data]
          simp only []
          rw [skipWs_cons_not (by decide)]
          simp only [reduceIte, ite_true]
          rw [parseVal_ws hfpos,
            ihP v ('\x7d' :: rest) hszv hwfv (by rw [digitStart_cons]; decide)]
          simp only []
          rw [skipWs_cons_not (by decide)]
          simp [strMk_data]
        | cons q kvs'' =>
          have hszv : psize v ≤ fuel := by rw [psizeMembers] at hsz; omega
          have hszr : psizeMembers (q :: kvs'') ≤ fuel := by rw [psizeMembers] at hsz; omega
          have hfpos : 0 < fuel := by have := psize_pos v; omega
          rw [show dumpMembers ((k, v) :: q :: kvs'')
              = ('"' :: escStr k.data ++ '"' :: ':' :: ' ' :: dumpVal v) ++
                ',' :: ' ' :: dumpMembers (q :: kvs'') from rfl]
          simp only [List.cons_append, List.append_assoc]
          rw [parseMembers.eq_2, skipWs_cons_not (by decide)]
          simp only [reduceIte, ite_true, ite_false, reduceCtorEq]
          rw [parseStrBody_escStr k.data]
          simp only []
          rw [skipWs_cons_not (by decide)]
          simp only [reduceIte, ite_true]
          rw [parseVal_ws hfpos]
          rw [show dumpVal v ++ ',' :: ' ' :: (dumpMembers (q :: kvs'') ++ '\x7d' :: rest)
              = dumpVal v ++ (',' :: ' ' :: (dumpMembers (q :: kvs'') ++ '\x7d' :: rest)) from rfl,
            ihP v _ hszv hwfv (by rw [digitStart_cons]; decide)]
          simp only []
          rw [skipWs_cons_not (by decide)]
          simp only [reduceIte, ite_true]
          rw [parseMembers_ws hfpos, ihR (q :: kvs'') rest hszr hwfr]
          simp [strMk_data]

theorem dumpVal_ne_nil (v : PyVal) : dumpVal v ≠ [] := by
  obtain ⟨c, cs, h, -, -⟩ := dumpVal_head v
  rw [h]; simp

theorem dump_len_master : ∀ n : Nat,
    (∀ v : PyVal, psize v ≤ n → psize v ≤ (dumpVal v).length) ∧
    (∀ xs : List PyVal, psizeElems xs ≤ n → psizeElems xs ≤ (dumpElems xs).length + 1) ∧
    (∀ kvs : List (String × PyVal), psizeMembers kvs ≤ n →
      psizeMembers kvs ≤ (dumpMembers kvs).length + 1) := by
  intro n
  induction n with
  | zero =>
    refine ⟨fun v h => absurd h (by have := psize_pos v; omega),
      fun xs h => absurd h (by have := psizeElems_pos xs; omega),
      fun kvs h => absurd h (by have := psizeMembers_pos kvs; omega)⟩
  | succ n ih =>
    obtain ⟨ihP, ihQ, ihR⟩ := ih
    refine ⟨?_, ?_, ?_⟩
    · intro v hsz
      cases v with
      | null => simp [psize, dumpVal]
      | bool b => cases b <;> simp [psize, dumpVal]
      | int m =>
        have h1 : (dumpVal (.int m)).length ≥ 1 := by
          have := dumpVal_ne_nil (.int m)
          cases h : dumpVal (.int m) with
          | nil => exact absurd h this
          | cons c cs => simp
        rw [psize]; omega
      | str s => simp [psize, dumpVal]
      | list xs =>
        have h := ihQ xs (by rw [psize] at hsz; omega)
        rw [psize, dumpVal]
        simp only [List.length_cons, List.length_append, List.length_singleton]
        omega
      | dict kvs =>
        have h := ihR kvs (by rw [psize] at hsz; omega)
        rw [psize, dumpVal]
        simp only [List.length_cons, List.length_append, List.length_singleton]
        omega
    · intro xs hsz
      cases xs with
      | nil => simp [psizeElems, dumpElems]
      | cons x xs' =>
        cases xs' with
        | nil =>
          have hx := ihP x (by
            rw [psizeElems] at hsz
            omega)
          have hlen : 1 ≤ (dumpVal x).length := by
            have := dumpVal_ne_nil x
            cases h : dumpVal x with
            | nil => exact absurd h this
            | cons c cs => simp
          rw [psizeElems, show dumpElems [x] = dumpVal x from rfl]
          have := psizeElems_pos ([] : List PyVal)
          rw [psizeElems]
          omega
        | cons y xs'' =>
          have hx := ihP x (by rw [psizeElems] at hsz; omega)
          have hy := ihQ (y :: xs'') (by rw [psizeElems] at hsz; omega)
          rw [psizeElems, show dumpElems (x :: y :: xs'')
            = dumpVal x ++ ',' :: ' ' :: dumpElems (y :: xs'') from rfl]
          simp only [List.length_append, List.length_cons]
          omega
    · intro kvs hsz
      cases kvs with
      | nil => simp [psizeMembers, dumpMembers]
      | cons p kvs' =>
        obtain ⟨k, v⟩ := p
        cases kvs' with
        | nil =>
          have hv := ihP v (by rw [psizeMembers] at hsz; omega)
          rw [psizeMembers, show dumpMembers [(k, v)]
            = '"' :: escStr k.data ++ '"' :: ':' :: ' ' :: dumpVal v from rfl]
          simp only [List.length_cons, List.length_append]
          have := psizeMembers_pos ([] : List (String × PyVal))
          rw [psizeMembers]
          omega
        | cons q kvs'' =>
          have hv := ihP v (by rw [psizeMembers] at hsz; omega)
          have hr := ihR (q :: kvs'') (by rw [psizeMembers] at hsz; omega)
          rw [psizeMembers, show dumpMembers ((k, v) :: q :: kvs'')
            = ('"' :: escStr k.data ++ '"' :: ':' :: ' ' :: dumpVal v) ++
              ',' :: ' ' :: dumpMembers (q :: kvs'') from rfl]
          simp only [List.length_cons, List.length_append]
          omega

theorem psize_le_dump_len (v : PyVal) : psize v ≤ (dumpVal v).length :=
  (dump_len_master (psize v)).1 v le_rfl

theorem loads_dumpVal {v : PyVal} (h : pywf v = true) : loads (dumpVal v) = some v := by
  unfold loads
  rcases Nat.lt_or_ge ((dumpVal v).length + 1) (psize v) with hlt | hge
  · have := psize_le_dump_len v; omega
  · have hp := (parse_dump_master ((dumpVal v).length + 1)).1 v [] hge h rfl
    rw [List.append_nil] at hp
    rw [hp]
    simp [skipWs]

/-! ### Round-trip: UTF-8 -/

theorem utf8_char_step (c : Char) (rest : List Nat) :
    utf8Decode (utf8EncodeChar c ++ rest) = (utf8Decode rest).map fun cs => c :: cs := by
  have hv : c.toNat < 55296 ∨ (57343 < c.toNat ∧ c.toNat < 1114112) := c.valid
  unfold utf8EncodeChar
  by_cases h1 : c.toNat < 128
  · rw [if_pos h1]
    simp only [List.cons_append, List.nil_append]
    rw [utf8Decode.eq_2, if_pos h1, Char.ofNat_toNat]
  · rw [if_neg h1]
    by_cases h2 : c.toNat < 2048
    · rw [if_pos h2]
      simp only [List.cons_append, List.nil_append]
      rw [utf8Decode.eq_2]
      rw [if_neg (by omega), if_neg (by omega), if_pos (by omega)]
      rw [utf8Dec2.eq_1]
      rw [if_pos (by simp only [utf8Cont, Bool.and_eq_true, decide_eq_true_eq]; omega)]
      rw [if_pos (by omega : 128 ≤ (192 + c.toNat / 64 - 192) * 64 + (128 + c.toNat % 64 - 128))]
      have he : (192 + c.toNat / 64 - 192) * 64 + (128 + c.toNat % 64 - 128) = c.toNat := by omega
      rw [he, Char.ofNat_toNat]
    · rw [if_neg h2]
      by_cases h3 : c.toNat < 65536
      · rw [if_pos h3]
        simp only [List.cons_append, List.nil_append]
        rw [utf8Decode.eq_2]
        have hlead : ¬224 + c.toNat / 4096 < 128 := by omega
        rw [if_neg hlead, if_neg (by omega), if_neg (by omega), if_pos (by omega)]
        rw [utf8Dec3.eq_1]
        rw [if_pos (by simp only [utf8Cont, Bool.and_eq_true, decide_eq_true_eq]; omega)]
        rw [if_pos (by
          simp only [Bool.and_eq_true, Bool.not_eq_true', decide_eq_true_eq,
            Bool.and_eq_false_iff, decide_eq_false_iff_not]
          omega)]
        have he : (224 + c.toNat / 4096 - 224) * 4096 + (128 + c.toNat / 64 % 64 - 128) * 64 +
            (128 + c.toNat % 64 - 128) = c.toNat := by omega
        rw [he, Char.ofNat_toNat]
      · rw [if_neg h3]
        simp only [List.cons_append, List.nil_append]
        rw [utf8Decode.eq_2]
        have hlead : ¬240 + c.toNat / 262144 < 128 := by omega
        rw [if_neg hlead, if_neg (by omega), if_neg (by omega), if_neg (by omega),
          if_pos (by omega)]
        rw [utf8Dec4.eq_1]
        rw [if_pos (by simp only [utf8Cont, Bool.and_eq_true, decide_eq_true_eq]; omega)]
        rw [if_pos (by simp only [Bool.and_eq_true, decide_eq_true_eq]; omega)]
        have he : (240 + c.toNat / 262144 - 240) * 262144 + (128 + c.toNat / 4096 % 64 - 128) * 4096
            + (128 + c.toNat / 64 % 64 - 128) * 64 + (128 + c.toNat % 64 - 128) = c.toNat := by
          omega
        rw [he, Char.ofNat_toNat]

theorem utf8_roundtrip (s : List Char) : utf8Decode (utf8Encode s) = some s := by
  induction s with
  | nil => rfl
  | cons c s ih =>
    rw [show utf8Encode (c :: s) = utf8EncodeChar c ++ utf8Encode s by simp [utf8Encode]]
    rw [utf8_char_step, ih]
    rfl

/-! ### Round-trip: the framed codec -/

theorem unpack4_pack4 {n : Nat} (h : n < 4294967296) : unpack4 (pack4 n) = some n := by
  simp only [pack4, unpack4]
  congr 1
  omega

theorem get_message_encode (v : PyVal) (hwf : pywf v = true)
    (hlen : (utf8Encode (dumpVal v)).length < 4294967296) :
    NativeMessaging.get_message
        (pack4 (utf8Encode (dumpVal v)).length ++ utf8Encode (dumpVal v)) = .ok (v, []) := by
  have h4 : (pack4 (utf8Encode (dumpVal v)).length).length = 4 := rfl
  have htake : (pack4 (utf8Encode (dumpVal v)).length ++ utf8Encode (dumpVal v)).take 4
      = pack4 (utf8Encode (dumpVal v)).length := by
    rw [← h4, List.take_left]
  have hdrop : (pack4 (utf8Encode (dumpVal v)).length ++ utf8Encode (dumpVal v)).drop 4
      = utf8Encode (dumpVal v) := by
    rw [← h4, List.drop_left]
  simp only [NativeMessaging.get_message, htake, hdrop, h4, unpack4_pack4 hlen,
    List.take_length, utf8_roundtrip, loads_dumpVal hwf, List.drop_length,
    OfNat.ofNat_ne_zero, if_false, reduceIte]

theorem encode_ok_shape {m : PyDict} {p : Bool} {f : Frame}
    (henc : NativeMessaging.encode_message m p = .ok f) :
    ∃ v : PyVal,
      v = (if p then PyVal.dict [("method", pyGetD m "method" .null),
              ("params", pyGetD m "params" (.dict []))] else .dict m) ∧
      f.length = pack4 (utf8Encode (dumpVal v)).length ∧
      f.content = utf8Encode (dumpVal v) ∧
      (utf8Encode (dumpVal v)).length < 4294967296 := by
  unfold NativeMessaging.encode_message at henc
  by_cases hl : (utf8Encode (dumpVal (if p then PyVal.dict [("method", pyGetD m "method" .null),
      ("params", pyGetD m "params" (.dict []))] else .dict m))).length < 4294967296
  · refine ⟨_, rfl, ?_, ?_, hl⟩ <;>
    · rw [if_pos hl] at henc
      cases henc
      rfl
  · rw [if_neg hl] at henc
    cases henc

/-! ### The handshake loop -/

theorem wfdLoop_never (msgs : Nat → PyDict) (delay : Nat → Nat) (start timeout : Nat)
    (flag0 : Bool) (D : Nat)
    (hnever : ∀ j, pyTruthy (pyGetD (msgs j) "connected" .null) = false)
    (hD : ∀ j, delay j ≤ D) :
    ∀ μ now k, start + timeout - now = μ → start ≤ now → now ≤ start + timeout + D + 300 →
      (wfdLoop msgs delay start timeout flag0 k now).connected = false ∧
      (wfdLoop msgs delay start timeout flag0 k now).is_new_protocol = flag0 ∧
      start + timeout ≤ (wfdLoop msgs delay start timeout flag0 k now).finish ∧
      (wfdLoop msgs delay start timeout flag0 k now).finish ≤ start + timeout + D + 300 := by
  intro μ
  induction μ using Nat.strong_induction_on with
  | _ μ ih =>
    intro now k hμ hlow hup
    rw [wfdLoop]
    split
    · rename_i h
      simp only [hnever k, Bool.false_eq_true, if_false, reduceIte]
      have hd := hD k
      exact ih (start + timeout - (now + delay k + 300)) (by omega) _ (k + 1) rfl (by omega)
        (by omega)
    · rename_i h
      exact ⟨rfl, rfl, by simp only; omega, by simp only; omega⟩

theorem wfdLoop_connected (msgs : Nat → PyDict) (delay : Nat → Nat) (start timeout : Nat)
    (flag0 : Bool) :
    ∀ μ now k, start + timeout - now = μ →
      (wfdLoop msgs delay start timeout flag0 k now).connected = true →
      ∃ j, k ≤ j ∧ pyTruthy (pyGetD (msgs j) "connected" .null) = true ∧
        (∀ i, k ≤ i → i < j → pyTruthy (pyGetD (msgs i) "connected" .null) = false) ∧
        (wfdLoop msgs delay start timeout flag0 k now).is_new_protocol =
          pyEqInt (pyGetD (msgs j) "browser_helper_protocol" (.int 1)) 2 := by
  intro μ
  induction μ using Nat.strong_induction_on with
  | _ μ ih =>
    intro now k hμ hconn
    rw [wfdLoop] at hconn ⊢
    by_cases h : now - start < timeout
    · rw [dif_pos h] at hconn ⊢
      by_cases hc : pyTruthy (pyGetD (msgs k) "connected" .null) = true
      · simp only [hc, if_true, reduceIte] at hconn ⊢
        exact ⟨k, le_rfl, hc, fun i h1 h2 => absurd (lt_of_le_of_lt h1 h2) (lt_irrefl k), rfl⟩
      · rw [Bool.not_eq_true] at hc
        simp only [hc, Bool.false_eq_true, if_false, reduceIte] at hconn ⊢
        obtain ⟨j, hkj, hj, hprev, hflag⟩ :=
          ih (start + timeout - (now + delay k + 300)) (by omega) _ (k + 1) rfl hconn
        refine ⟨j, by omega, hj, ?_, hflag⟩
        intro i h1 h2
        rcases Nat.eq_or_lt_of_le h1 with he | hlt
        · rw [← he]; exact hc
        · exact hprev i hlt h2
    · rw [dif_neg h] at hconn
      exact absurd hconn (by simp)

/-! ### Helper lemmas on the response loop -/

theorem isResponse_event {m : PyDict} (ht : typeIsMethodOrResult m = false)
    (hn : pyTruthy (pyGetD m "name" .null) = true) : isResponse m = false := by
  simp [isResponse, ht, hn]

theorem getResponse_skip {m : PyDict} (rest : List PyDict) (h : isResponse m = false) :
    getResponse (m :: rest) = getResponse rest := by
  simp [getResponse, h]

theorem getResponse_events : ∀ (pre : List PyDict) (rest : List PyDict),
    (∀ e ∈ pre, isResponse e = false) → getResponse (pre ++ rest) = getResponse rest := by
  intro pre
  induction pre with
  | nil => intro rest _; rfl
  | cons e pre ih =>
    intro rest h
    rw [List.cons_append, getResponse_skip _ (h e (List.mem_cons_self e pre))]
    exact ih rest fun x hx => h x (List.mem_cons_of_mem _ hx)

theorem pywf_lookup : ∀ {m : PyDict}, pywfMembers m = true → ∀ {k : String} {v : PyVal},
    pyLookup m k = some v → pywf v = true := by
  intro m
  induction m with
  | nil => intro _ k v h; exact absurd h (by simp [pyLookup])
  | cons p rest ih =>
    intro hwf k v h
    obtain ⟨k', v'⟩ := p
    simp only [pywfMembers, Bool.and_eq_true] at hwf
    rw [pyLookup] at h
    by_cases he : k' == k
    · rw [if_pos he] at h
      cases h
      exact hwf.1
    · rw [if_neg he] at h
      exact ih hwf.2 h

theorem pywf_pyGetD {m : PyDict} (h : pywfMembers m = true) (k : String) {d : PyVal}
    (hd : pywf d = true) : pywf (pyGetD m k d) = true := by
  unfold pyGetD
  cases hl : pyLookup m k with
  | none => simpa using hd
  | some v => simpa using pywf_lookup h hl

/-! ### The claims -/

/-- C1: a zero-byte read of the 4-byte length prefix is the terminal
stream-closure condition: `get_message` raises `SystemExit(0)` (the code's
realization of TransportClosed) — a distinct, catchable exception that is
not a decode error, is not retried, and propagates to the caller. -/
theorem c1_transport_closed (fd : List Nat) (h : fd.take 4 = []) :
    NativeMessaging.get_message fd = .error (.systemExit 0) ∧
    NativeMessaging.get_message fd ≠ .error .jsonDecodeError ∧
    NativeMessaging.get_message fd ≠ .error .unicodeDecodeError := by
  have hfd : fd = [] := by
    cases fd with
    | nil => rfl
    | cons b r => simp [List.take] at h
  subst hfd
  refine ⟨rfl, ?_, ?_⟩ <;> intro hcontra <;>
    rw [show NativeMessaging.get_message [] = .error (.systemExit 0) from rfl] at hcontra <;>
    exact PyExc.noConfusion (Except.error.inj hcontra)

/-- Closed witness for C1 at the empty stream. -/
theorem c1_transport_closed_witness :
    NativeMessaging.get_message [] = .error (.systemExit 0) ∧
    NativeMessaging.get_message [] ≠ .error .jsonDecodeError ∧
    NativeMessaging.get_message [] ≠ .error .unicodeDecodeError :=
  c1_transport_closed [] rfl

/-- The classification rule exactly as the claim words it: `type` in
`{method, result}`, or no `name` field present at all. -/
def claimIsResponseOriginal (m : PyDict) : Bool :=
  typeIsMethodOrResult m || (pyLookup m "name").isNone

/-- The classification rule as amended: `type` in `{method, result}`, or
the `name` field absent or bound to a falsy value. -/
def claimIsResponseAmended (m : PyDict) : Bool :=
  typeIsMethodOrResult m ||
    (match pyLookup m "name" with
     | none => true
     | some v => !pyTruthy v)

/-- C2 counterexample: the message `{"name": "", "type": "event"}` has a
`name` field and `type` outside `{method, result}`, so the claim classifies
it as an event to skip; the code consumes it as the response (its `name`
is falsy). -/
theorem c2_counterexample :
    isResponse [("name", .str ""), ("type", .str "event")] = true ∧
    claimIsResponseOriginal [("name", .str ""), ("type", .str "event")] = false ∧
    getResponse [[("name", PyVal.str ""), ("type", PyVal.str "event")]]
      = some (.ok [("name", PyVal.str ""), ("type", PyVal.str "event")]) :=
  ⟨rfl, rfl, rfl⟩

/-- C2 (amended): a message is consumed as the response iff its `type` is
`"method"` or `"result"` or its `name` field is absent **or falsy**; in
particular, for `[event, event, real_response]` with truthy-`name` events
whose `type` is not in `{method, result}`, `call()` returns exactly
`real_response`. -/
theorem c2_event_filtering_amended :
    (∀ m : PyDict, isResponse m = claimIsResponseAmended m) ∧
    (∀ (s : Session) (method : String) (params : Option PyDict) (e1 e2 r : PyDict),
      typeIsMethodOrResult e1 = false → pyTruthy (pyGetD e1 "name" .null) = true →
      typeIsMethodOrResult e2 = false → pyTruthy (pyGetD e2 "name" .null) = true →
      isResponse r = true → pyLookup r "error" = none →
      (∃ f, NativeMessaging.encode_message (s.buildRequest method params)
        s.is_new_protocol = .ok f) →
      (s.call method params [e1, e2, r]).1 = .returned r) := by
  constructor
  · intro m
    unfold isResponse claimIsResponseAmended pyGetD
    cases pyLookup m "name" with
    | none => rfl
    | some v => rfl
  · intro s method params e1 e2 r ht1 hn1 ht2 hn2 hr hne ⟨f, hf⟩
    simp only [Session.call, hf]
    rw [show ([e1, e2, r] : List PyDict) = [e1, e2] ++ [r] from rfl,
      getResponse_events [e1, e2] [r]
        (by
          intro e he
          rcases List.mem_cons.mp he with rfl | he2
          · exact isResponse_event ht1 hn1
          · rcases List.mem_cons.mp he2 with rfl | h3
            · exact isResponse_event ht2 hn2
            · cases h3)]
    simp [getResponse, hr, hne]

/-- Closed witness for the amended C2. -/
theorem c2_event_filtering_amended_witness :
    ((⟨true⟩ : Session).call "XVPN.Connect" none
      [[("name", PyVal.bool true)], [("name", PyVal.bool true)], []]).1
      = .returned [] :=
  c2_event_filtering_amended.2 ⟨true⟩ "XVPN.Connect" none _ _ _
    rfl rfl rfl rfl rfl rfl ⟨_, rfl⟩

/-- The transformation the claim words describe: strip the literal
namespace prefix `"XVPN."` from the front of the method name only. -/
def stripXVPNPrefixOnly (method : String) : String :=
  if "XVPN.".data.isPrefixOf method.data then ⟨method.data.drop 5⟩ else method

/-- C3 counterexample: for method `"A.XVPN.B"` the code's
`method.replace("XVPN.", "")` yields `"A.B"` (every occurrence removed),
while prefix-stripping leaves `"A.XVPN.B"` unchanged. -/
theorem c3_counterexample :
    pyLookup (Session.buildRequest ⟨true⟩ "A.XVPN.B" none) "method"
      = some (.str "A.B") ∧
    stripXVPNPrefixOnly "A.XVPN.B" = "A.XVPN.B" ∧
    ("A.B" : String) ≠ "A.XVPN.B" :=
  ⟨rfl, rfl, by decide⟩

/-- C3 (amended): with `is_new_protocol` true, `build_request` yields
`{"method": m', "params": params}` — no `jsonrpc`/`id` fields — where `m'`
is the method with **every occurrence** of the literal substring `"XVPN."`
removed (in particular `"XVPN.Connect" ↦ "Connect"`); with it false, the
four-field legacy shape with `id = 200` and the method unmodified. -/
theorem c3_build_request_amended (method : String) (params : Option PyDict) :
    Session.buildRequest ⟨true⟩ method params
      = [("method", .str ⟨replaceXVPN method.data⟩), ("params", .dict (params.getD []))] ∧
    pyLookup (Session.buildRequest ⟨true⟩ method params) "jsonrpc" = none ∧
    pyLookup (Session.buildRequest ⟨true⟩ method params) "id" = none ∧
    Session.buildRequest ⟨false⟩ method params
      = [("jsonrpc", .str "2.0"), ("method", .str method),
         ("params", .dict (params.getD [])), ("id", .int 200)] ∧
    Session.buildRequest ⟨true⟩ "XVPN.Connect" (some [("id", .str "x")])
      = [("method", .str "Connect"), ("params", .dict [("id", .str "x")])] :=
  ⟨rfl, rfl, rfl, rfl, rfl⟩

/-- C4: decoding the frame produced by `encode_message` yields the whole
dict when the protocol flag is false, and exactly
`{"method": m.get("method"), "params": m.get("params", {})}` when true —
every other field dropped. -/
theorem c4_roundtrip (m : PyDict) (p : Bool) (f : Frame)
    (hwf : pywf (.dict m) = true)
    (henc : NativeMessaging.encode_message m p = .ok f) :
    NativeMessaging.get_message (f.length ++ f.content)
      = .ok ((if p then PyVal.dict [("method", pyGetD m "method" .null),
              ("params", pyGetD m "params" (.dict []))] else .dict m), []) := by
  obtain ⟨v, hv, hlen, hcontent, hbound⟩ := encode_ok_shape henc
  have hmembers : pywfMembers m = true := by
    rw [pywf] at hwf
    simp only [Bool.and_eq_true] at hwf
    exact hwf.2
  have hwfv : pywf v = true := by
    rw [hv]
    by_cases hp : p = true
    · rw [if_pos hp]
      simp [pywf, pywfMembers, nodupKeys,
        pywf_pyGetD hmembers "method" (show pywf .null = true from rfl),
        pywf_pyGetD hmembers "params" (show pywf (.dict []) = true from rfl)]
    · rw [if_neg hp]
      exact hwf
  rw [hlen, hcontent, get_message_encode v hwfv hbound, hv]

/-- Closed witness for C4 with an extra field that must be dropped. -/
theorem c4_roundtrip_witness :
    ∃ f, NativeMessaging.encode_message
        [("method", PyVal.str "Ping"), ("x", PyVal.int 7)] true = .ok f ∧
      NativeMessaging.get_message (f.length ++ f.content)
        = .ok (.dict [("method", PyVal.str "Ping"), ("params", .dict [])], []) :=
  ⟨_, rfl, c4_roundtrip [("method", PyVal.str "Ping"), ("x", PyVal.int 7)] true _ rfl rfl⟩

/-- C5: if no message ever carries a truthy `connected`, the handshake
terminates with the timeout error (never success, never an unbounded
hang), having polled with 300 ms sleeps until at least `timeout` ms past
`start` (and, when each blocking read takes at most `D` ms, at most
`timeout + D + 300` ms past `start`). -/
theorem c5_handshake_timeout (msgs : Nat → PyDict) (delay : Nat → Nat)
    (start timeout D : Nat) (flag0 : Bool)
    (hnever : ∀ j, pyTruthy (pyGetD (msgs j) "connected" .null) = false)
    (hD : ∀ j, delay j ≤ D) :
    waitForDaemon msgs delay start timeout flag0 = .error .timeoutError ∧
    start + timeout ≤ (wfdLoop msgs delay start timeout flag0 0 start).finish ∧
    (wfdLoop msgs delay start timeout flag0 0 start).finish ≤ start + timeout + D + 300 := by
  obtain ⟨hc, hflag, hlo, hup⟩ := wfdLoop_never msgs delay start timeout flag0 D hnever hD
    (start + timeout - start) start 0 rfl le_rfl (by omega)
  refine ⟨?_, hlo, hup⟩
  simp only [waitForDaemon, hc, Bool.false_eq_true, if_false, reduceIte]

/-- Closed witness for C5: an empty-dict source times out. -/
theorem c5_handshake_timeout_witness :
    waitForDaemon (fun _ => []) (fun _ => 0) 0 1000 false = .error .timeoutError ∧
    0 + 1000 ≤ (wfdLoop (fun _ => []) (fun _ => 0) 0 1000 false 0 0).finish ∧
    (wfdLoop (fun _ => []) (fun _ => 0) 0 1000 false 0 0).finish ≤ 0 + 1000 + 0 + 300 :=
  c5_handshake_timeout (fun _ => []) (fun _ => 0) 0 1000 0 false
    (fun _ => rfl) (fun _ => le_rfl)

/-- C6: when the classified response carries an `error` field, `call()`
fails with `DaemonError` carrying exactly that payload (never a decode
error); when it carries none, `call()` returns the response itself. -/
theorem c6_error_surfacing (s : Session) (method : String) (params : Option PyDict)
    (pre : List PyDict) (m : PyDict) (rest : List PyDict)
    (hpre : ∀ e ∈ pre, isResponse e = false) (hm : isResponse m = true)
    (henc : ∃ f, NativeMessaging.encode_message (s.buildRequest method params)
      s.is_new_protocol = .ok f) :
    (∀ v, pyLookup m "error" = some v →
      (s.call method params (pre ++ m :: rest)).1 = .errored (.daemonError v)) ∧
    (pyLookup m "error" = none →
      (s.call method params (pre ++ m :: rest)).1 = .returned m) := by
  obtain ⟨f, hf⟩ := henc
  constructor
  · intro v hv
    simp only [Session.call, hf]
    rw [getResponse_events pre _ hpre]
    simp [getResponse, hm, hv]
  · intro hv
    simp only [Session.call, hf]
    rw [getResponse_events pre _ hpre]
    simp [getResponse, hm, hv]

/-- Closed witness for C6: a response `{"error": "bad state"}` surfaces as
`DaemonError "bad state"`. -/
theorem c6_error_surfacing_witness :
    ((⟨true⟩ : Session).call "GetStatus" none
      [[("error", PyVal.str "bad state")]]).1
      = .errored (.daemonError (.str "bad state")) :=
  (c6_error_surfacing ⟨true⟩ "GetStatus" none [] [("error", PyVal.str "bad state")] []
    (by intro e he; cases he) rfl ⟨_, rfl⟩).1 (.str "bad state") rfl

/-- C7: on every frame `encode_message` emits, the 4-byte prefix decodes
(as a native-endian unsigned 32-bit integer) to exactly the byte length of
the payload that follows. -/
theorem c7_length_prefix (m : PyDict) (p : Bool) (f : Frame)
    (henc : NativeMessaging.encode_message m p = .ok f) :
    unpack4 f.length = some f.content.length := by
  obtain ⟨v, hv, hlen, hcontent, hbound⟩ := encode_ok_shape henc
  rw [hlen, hcontent, unpack4_pack4 hbound]

/-- Closed witness for C7. -/
theorem c7_length_prefix_witness :
    ∃ f, NativeMessaging.encode_message [("a", PyVal.str "b")] false = .ok f ∧
      unpack4 f.length = some f.content.length :=
  ⟨_, rfl, c7_length_prefix [("a", PyVal.str "b")] false _ rfl⟩

/-- C8: (1) whenever the handshake succeeds, the session's
`is_new_protocol` equals the `browser_helper_protocol == 2` test (field
defaulting to 1) of the first truthy-`connected` message pulled — it is
assigned there and only there; (2) `call` and `close` return the session
state unchanged. -/
theorem c8_protocol_immutable :
    (∀ (msgs : Nat → PyDict) (delay : Nat → Nat) (start timeout : Nat) (flag0 : Bool)
      (s : Session), waitForDaemon msgs delay start timeout flag0 = .ok s →
      ∃ j, pyTruthy (pyGetD (msgs j) "connected" .null) = true ∧
        (∀ i, i < j → pyTruthy (pyGetD (msgs i) "connected" .null) = false) ∧
        s.is_new_protocol = pyEqInt (pyGetD (msgs j) "browser_helper_protocol" (.int 1)) 2) ∧
    (∀ (s : Session) (method : String) (params : Option PyDict) (incoming : List PyDict),
      (s.call method params incoming).2.2 = s ∧ s.close = s) := by
  constructor
  · intro msgs delay start timeout flag0 s hok
    simp only [waitForDaemon] at hok
    by_cases hc : (wfdLoop msgs delay start timeout flag0 0 start).connected = true
    · rw [if_pos hc] at hok
      obtain ⟨j, h0j, hj, hprev, hflag⟩ :=
        wfdLoop_connected msgs delay start timeout flag0 _ start 0 rfl hc
      have hs : s = ⟨(wfdLoop msgs delay start timeout flag0 0 start).is_new_protocol⟩ :=
        (Except.ok.inj hok).symm
      subst hs
      exact ⟨j, hj, fun i hi => hprev i (Nat.zero_le i) hi, hflag⟩
    · rw [Bool.not_eq_true] at hc
      rw [if_neg (by simp [hc])] at hok
      exact Except.noConfusion hok
  · intro s method params incoming
    refine ⟨?_, rfl⟩
    simp only [Session.call]
    cases NativeMessaging.encode_message (s.buildRequest method params) s.is_new_protocol with
    | error e => rfl
    | ok f =>
      cases getResponse incoming with
      | none => rfl
      | some r => cases r with
        | error e => rfl
        | ok m => rfl

/-- Closed witness for C8: a handshake whose first message announces
protocol 2 resolves `is_new_protocol = true`, and `call`/`close` leave it
untouched. -/
theorem c8_protocol_immutable_witness :
    (∃ j, pyTruthy (pyGetD ((fun _ => [("connected", PyVal.bool true),
        ("browser_helper_protocol", PyVal.int 2)] : Nat → PyDict) j) "connected" .null) = true ∧
      (∀ i, i < j → pyTruthy (pyGetD ((fun _ => [("connected", PyVal.bool true),
        ("browser_helper_protocol", PyVal.int 2)] : Nat → PyDict) i) "connected" .null) = false) ∧
      (⟨true⟩ : Session).is_new_protocol
        = pyEqInt (pyGetD ((fun _ => [("connected", PyVal.bool true),
            ("browser_helper_protocol", PyVal.int 2)] : Nat → PyDict) j)
            "browser_helper_protocol" (.int 1)) 2) ∧
    ((⟨true⟩ : Session).call "GetStatus" none []).2.2 = (⟨true⟩ : Session) := by
  have hok : waitForDaemon (fun _ => [("connected", PyVal.bool true),
      ("browser_helper_protocol", PyVal.int 2)]) (fun _ => 0) 0 1000 false = .ok ⟨true⟩ := by
    have h1 : pyTruthy (pyGetD [("connected", PyVal.bool true),
        ("browser_helper_protocol", PyVal.int 2)] "connected" .null) = true := rfl
    have h2 : pyEqInt (pyGetD [("connected", PyVal.bool true),
        ("browser_helper_protocol", PyVal.int 2)] "browser_helper_protocol" (.int 1)) 2
        = true := rfl
    simp only [waitForDaemon]
    rw [wfdLoop, dif_pos (by norm_num : (0 : Nat) - 0 < 1000)]
    simp only [h1, h2, if_true, reduceIte]
  exact ⟨c8_protocol_immutable.1 _ _ 0 1000 false ⟨true⟩ hok,
    (c8_protocol_immutable.2 ⟨true⟩ "GetStatus" none []).1⟩

/-- C9: when no location name equals the requested name case-insensitively,
`get_location_id` fails with the `ValueError` whose message carries the
first location whose (lower-cased) name contains the requested name as a
substring when one exists, and no suggestion otherwise. -/
theorem c9_location_not_found (locations : List LocEntry) (name : String)
    (hexact : locations.find? (fun l => lowerStr l.name == lowerStr name) = none) :
    match locations.find? (fun l => containsSub (lowerStr name).data (lowerStr l.name).data) with
    | some l => get_location_id locations name = .error (.valueError
        ("Country " ++ name ++ " not found. " ++ ("Did you mean " ++ l.name ++ "?")))
    | none => get_location_id locations name = .error (.valueError
        ("Country " ++ name ++ " not found. " ++ "")) := by
  unfold get_location_id
  rw [hexact]
  cases hsim : locations.find? (fun l => containsSub (lowerStr name).data (lowerStr l.name).data)
    with
  | some l => rfl
  | none => rfl

/-- Closed witness for C9: `"Kingdom"` is not a location name but is a
substring of `"United Kingdom"`, which is suggested. -/
theorem c9_location_not_found_witness :
    get_location_id [⟨"United Kingdom", PyVal.str "gb"⟩] "Kingdom" = .error (.valueError
      ("Country " ++ "Kingdom" ++ " not found. " ++ ("Did you mean " ++ "United Kingdom" ++ "?")))
    :=
  c9_location_not_found [⟨"United Kingdom", PyVal.str "gb"⟩] "Kingdom" rfl

/-- C10 (implicit): a message classified as an event — `type` outside
`{method, result}` and truthy `name` — is discarded by the response loop
even when it carries an `error` field; it can never produce the
`DaemonError` outcome. -/
theorem c10_event_error_ignored (m : PyDict) (rest : List PyDict)
    (ht : typeIsMethodOrResult m = false)
    (hn : pyTruthy (pyGetD m "name" .null) = true)
    (herr : (pyLookup m "error").isSome = true) :
    getResponse (m :: rest) = getResponse rest :=
  getResponse_skip rest (isResponse_event ht hn)

/-- Closed witness for C10: an event carrying `error` is skipped. -/
theorem c10_event_error_ignored_witness :
    getResponse [[("name", PyVal.bool true), ("error", PyVal.int 1)], []]
      = getResponse [([] : PyDict)] :=
  c10_event_error_ignored [("name", PyVal.bool true), ("error", PyVal.int 1)] [[]]
    rfl rfl rfl
